import Mathlib

/-!
Verification of the FHE-challenge experiment pipeline of this repository
(`rdagent/scenarios/fhe_challenge/{runner,evaluator,developer,experiment}.py`).

Modelling conventions of this shallow embedding:
* Python strings are lists of characters (`List Char`); `s[:n]` is `List.take n`,
  `s[-n:]` is `pyTail n`.  Python `str.strip` / `str.lower` are modelled on the
  ASCII range (`pyStrip`, `Char.toLower`), which covers every string the code
  manipulates.
* Python floats are modelled as exact rationals (`ℚ`); the claims under study
  concern control flow and the algebraic shape of the score computation, not
  IEEE rounding.
* Python regular-expression searches are modelled as explicit leftmost-match
  scanners over character lists.  The patterns involved (`Accuracy:\s*([0-9.]+)`,
  `Slots passed:\s*(\d+)/(\d+)`, `void\s+\w+::eval\s*\(\s*\)\s*\{`) consist of
  literals and greedy character-class runs whose class is disjoint from the
  following literal, so Python's backtracking search coincides with
  deterministic maximal-munch scanning.  `\s` and `\w` are modelled on ASCII.
* A Python exception escaping a function is `Except.error ()`; code that cannot
  raise is a plain function.  Filesystem and Docker side effects are inputs:
  an external command is a `DockerBehavior` (it completes with output and exit
  code, times out, or raises), the validator artifact `result.json` is an
  optional, optionally-parseable value.
-/

namespace FHE

/-- ASCII model of Python's `\s` class (also used for `str.strip`). -/
def isPySpace (c : Char) : Bool :=
  c = ' ' || c = '\t' || c = '\n' || c = '\r' || c = '\x0b' || c = '\x0c'

/-- ASCII model of Python's `\w` class. -/
def isWordChar (c : Char) : Bool :=
  c.isAlphanum || c = '_'

/-- Characters matched by the regex class `[0-9.]`. -/
def isDigitDot (c : Char) : Bool :=
  c.isDigit || c = '.'

/-- Python `s[-n:]`: the last `n` characters (all of `s` when it is shorter). -/
def pyTail (n : Nat) (s : List Char) : List Char :=
  s.drop (s.length - n)

/-- Python `str.strip()`: drop ASCII whitespace from both ends. -/
def pyStrip (s : List Char) : List Char :=
  ((s.dropWhile isPySpace).reverse.dropWhile isPySpace).reverse

/-- Boolean substring test, used for Python's `kw in text`. -/
def containsSub (pat : List Char) : List Char → Bool
  | [] => pat.isEmpty
  | c :: tl => pat.isPrefixOf (c :: tl) || containsSub pat tl

/-- Decimal-digit string to `Nat`, the value Python's `int()` computes. -/
def digitsToNat (ds : List Char) : Nat :=
  ds.foldl (fun n c => 10 * n + (c.toNat - '0'.toNat)) 0

/-- The value Python's `float()` computes on a token made of digits and at most
one dot. -/
def floatVal (tok : List Char) : ℚ :=
  let ip := tok.takeWhile (fun c => c ≠ '.')
  let fp := (tok.dropWhile (fun c => c ≠ '.')).drop 1
  (digitsToNat ip : ℚ) + (digitsToNat fp : ℚ) / (10 : ℚ) ^ fp.length

/-- Python `float()` applied to a token drawn from the class `[0-9.]+`: it
succeeds exactly when the token has at least one digit and at most one dot
(e.g. it raises `ValueError` on `"1.2.3"` and on `"."`). -/
def pyFloat (tok : List Char) : Option ℚ :=
  if tok.count '.' ≤ 1 && tok.any Char.isDigit then some (floatVal tok) else none

/-- Decidable equality for parse results, so that concrete parses can be
checked by `decide`. -/
instance : DecidableEq (Except Unit (Option ℚ)) := fun a b =>
  match a, b with
  | .ok x, .ok y =>
    if h : x = y then .isTrue (by rw [h]) else .isFalse (fun hh => h (by injection hh))
  | .error x, .error y => .isTrue (by cases x; cases y; rfl)
  | .ok _, .error _ => .isFalse (fun hh => Except.noConfusion hh)
  | .error _, .ok _ => .isFalse (fun hh => Except.noConfusion hh)

/-- Model of a `"\n\n".join`-style list join. -/
def joinSep (sep : List Char) : List (List Char) → List Char
  | [] => []
  | [x] => x
  | x :: y :: ys => x ++ sep ++ joinSep sep (y :: ys)

/-! ## The experiment record (`experiment.py`, `FHEExperiment.__init__`) -/

/-- Run-outcome fields of `FHEExperiment` (experiment.py lines 49-56). -/
structure FHEExperiment where
  docker_output : List Char
  build_success : Bool
  run_success : Bool
  accuracy : Option ℚ
  error_message : List Char
  deriving DecidableEq, Repr

/-- Field values set by `FHEExperiment.__init__`. -/
def FHEExperiment.init : FHEExperiment :=
  { docker_output := [], build_success := false, run_success := false,
    accuracy := none, error_message := [] }

/-! ## The Judge (`evaluator.py`, `FHEEvaluator.generate_feedback`)

`trace.get_sota_hypothesis_and_experiment()` is outside the evaluated fields:
only the previous best accuracy (when one exists) reaches the feedback text, so
it enters the model as an `Option ℚ` argument.  Numeric `f`-string formatting
(`:.4f` etc.) is abstracted by `fmtQ`. -/

/-- Rendering of a number inside an f-string (formatting width abstracted). -/
def fmtQ (q : ℚ) : List Char :=
  (toString q).toList

/-- Result value of `generate_feedback` (an `ExperimentFeedback`). -/
structure ExperimentFeedback where
  reason : List Char
  decision : Bool
  deriving DecidableEq, Repr

/-- Value `DEFAULT_ACCURACY_THRESHOLD` of evaluator.py. -/
def DEFAULT_ACCURACY_THRESHOLD : ℚ := 8 / 10

/-- Model of `FHEEvaluator.generate_feedback` (evaluator.py lines 27-74).
`sotaAccuracy` is the previous best accuracy exposed by the trace, when the
trace has a SOTA experiment with a non-`None` accuracy. -/
def generate_feedback (accuracy_threshold : ℚ) (exp : FHEExperiment)
    (sotaAccuracy : Option ℚ) : ExperimentFeedback :=
  if exp.build_success = false then
    { reason := "Build failed.\n\nError:\n".toList ++ exp.error_message.take 2000 ++
        "\n\nDocker output (last 1000 chars):\n".toList ++ pyTail 1000 exp.docker_output,
      decision := false }
  else if exp.run_success = false then
    { reason := "Runtime error.\n\nError:\n".toList ++ exp.error_message.take 2000 ++
        "\n\nDocker output (last 1000 chars):\n".toList ++ pyTail 1000 exp.docker_output,
      decision := false }
  else
    match exp.accuracy with
    | none =>
      { reason := "Run succeeded but accuracy could not be parsed.\n\n".toList ++
          "Docker output (last 1000 chars):\n".toList ++ pyTail 1000 exp.docker_output,
        decision := false }
    | some accuracy =>
      let passed := decide (accuracy ≥ accuracy_threshold)
      let status := if passed then "PASSED".toList else "FAILED".toList
      let base := "Accuracy: ".toList ++ fmtQ accuracy ++ " (".toList ++
          fmtQ (accuracy * 100) ++ "%)\n".toList ++
          "Threshold: ".toList ++ fmtQ accuracy_threshold ++ " (".toList ++
          fmtQ (accuracy_threshold * 100) ++ "%)\n".toList ++
          "Status: ".toList ++ status ++ "\n\n".toList ++
          "Docker output (last 2000 chars):\n".toList ++ pyTail 2000 exp.docker_output
      let reason :=
        match sotaAccuracy with
        | some best => base ++ "\n\nPrevious best accuracy: ".toList ++ fmtQ best
        | none => base
      { reason := reason, decision := passed }

/-! ## External command model (`runner.py`, `FHERunner._docker_run`)

A `subprocess.run` invocation either completes with captured output and exit
code, raises `subprocess.TimeoutExpired`, or raises some other exception; the
helper converts the latter two into synthetic `(output, 1)` results. -/

/-- Possible behaviours of one external Docker invocation. -/
inductive DockerBehavior where
  | completes (output : List Char) (rc : Int)
  | timesOut
  | raises (msg : List Char)
  deriving DecidableEq, Repr

/-- Model of `FHERunner._docker_run` (runner.py lines 279-295): returns
`(stdout+stderr, exit code)`; a timeout or any other exception is converted
into a synthetic message with exit status 1. -/
def dockerRun (timeout : Nat) (b : DockerBehavior) : List Char × Int :=
  match b with
  | .completes output rc => (output, rc)
  | .timesOut =>
      (("Docker command timed out after " ++ toString timeout ++ "s").toList, 1)
  | .raises msg => (msg, 1)

/-! ## Accuracy parsers (`runner.py` lines 230-273)

`re.search(r"Accuracy:\s*([0-9.]+)", output)`: leftmost position at which the
literal is followed, after greedy whitespace, by at least one `[0-9.]`
character; the captured group is the maximal `[0-9.]` run. -/

/-- Attempt the pattern `Accuracy:\s*([0-9.]+)` at the head of `cs`,
returning the captured group. -/
def matchAccuracyAt (cs : List Char) : Option (List Char) :=
  if "Accuracy:".toList.isPrefixOf cs then
    let r := (cs.drop 9).dropWhile isPySpace
    let tok := r.takeWhile isDigitDot
    if tok.isEmpty then none else some tok
  else none

/-- Leftmost match of `Accuracy:\s*([0-9.]+)` (the `re.search` scan). -/
def searchAccuracy : List Char → Option (List Char)
  | [] => none
  | c :: tl =>
    match matchAccuracyAt (c :: tl) with
    | some tok => some tok
    | none => searchAccuracy tl

/-- Attempt `Slots passed:\s*(\d+)/(\d+)` at the head of `cs`, returning the
two captured integers. -/
def matchSlotsAt (cs : List Char) : Option (Nat × Nat) :=
  if "Slots passed:".toList.isPrefixOf cs then
    let r := (cs.drop 13).dropWhile isPySpace
    let d1 := r.takeWhile Char.isDigit
    if d1.isEmpty then none
    else
      match r.dropWhile Char.isDigit with
      | '/' :: r2 =>
        let d2 := r2.takeWhile Char.isDigit
        if d2.isEmpty then none else some (digitsToNat d1, digitsToNat d2)
      | _ => none
  else none

/-- Leftmost match of `Slots passed:\s*(\d+)/(\d+)`. -/
def searchSlots : List Char → Option (Nat × Nat)
  | [] => none
  | c :: tl =>
    match matchSlotsAt (c :: tl) with
    | some p => some p
    | none => searchSlots tl

/-- Model of `FHERunner._parse_accuracy_black_box` (runner.py lines 230-240).
`Except.error ()` is the `ValueError` that `float(match.group(1))` raises when
the matched token is not a valid float literal (e.g. `"1.2.3"`). -/
def parseAccuracyBlackBox (output : List Char) : Except Unit (Option ℚ) :=
  match searchAccuracy output with
  | some tok =>
    match pyFloat tok with
    | some q => .ok (some q)
    | none => .error ()
  | none =>
    match searchSlots output with
    | some (m1, m2) => if m2 > 0 then .ok (some ((m1 : ℚ) / (m2 : ℚ))) else .ok none
    | none => .ok none

/-- Attempt `[Aa]ccuracy:\s*([0-9.]+)` at the head of `cs`. -/
def matchAccuracyAtCI (cs : List Char) : Option (List Char) :=
  match cs with
  | c :: tl =>
    if (c = 'A' || c = 'a') && "ccuracy:".toList.isPrefixOf tl then
      let r := (tl.drop 8).dropWhile isPySpace
      let tok := r.takeWhile isDigitDot
      if tok.isEmpty then none else some tok
    else none
  | [] => none

/-- Leftmost match of `[Aa]ccuracy:\s*([0-9.]+)`. -/
def searchAccuracyCI : List Char → Option (List Char)
  | [] => none
  | c :: tl =>
    match matchAccuracyAtCI (c :: tl) with
    | some tok => some tok
    | none => searchAccuracyCI tl

/-- Model of `FHERunner._parse_accuracy_from_output` (runner.py lines 268-273); the
`float()` call can likewise raise. -/
def parseAccuracyFromOutput (output : List Char) : Except Unit (Option ℚ) :=
  match searchAccuracyCI output with
  | some tok =>
    match pyFloat tok with
    | some q => .ok (some q)
    | none => .error ()
  | none => .ok none

/-! ## `result.json` model (`runner.py`, `FHERunner._parse_accuracy_white_box`)

The artifact is abstracted at the JSON level: a run holds numeric `result` and
`expected_output` arrays and an optional run-level `error_threshold`; a test
case holds runs and an optional case-level `error_threshold`.  A file whose
text `json.loads` (or any of the numeric coercions) rejects is `none`: the
`try/except` around the parser turns every such failure into a `None`
accuracy. -/

/-- One entry of a test case's `"runs"` array. -/
structure WBRun where
  result : List ℚ
  expected_output : List ℚ
  error_threshold : Option ℚ
  deriving DecidableEq, Repr

/-- One entry of the artifact's `"testcases"` array. -/
structure WBTestcase where
  error_threshold : Option ℚ
  runs : List WBRun
  deriving DecidableEq, Repr

/-- The parsed `result.json` artifact. -/
structure WBResult where
  testcases : List WBTestcase
  deriving DecidableEq, Repr

/-- Model of `FHERunner._parse_accuracy_white_box` (runner.py lines 242-266): count
(total, correct) slots over every test case, run and zipped
(result, expected) pair, then return `correct / total` (or `None` on zero
slots or an unparseable artifact).  The Python locals `error_threshold` and
`thresh` are inlined at their single use site. -/
def parseAccuracyWhiteBox (data : Option WBResult) : Option ℚ :=
  match data with
  | none => none
  | some d =>
    let counts := d.testcases.foldl (fun acc tc =>
      tc.runs.foldl (fun acc2 run =>
        (run.result.zip run.expected_output).foldl
          (fun tcc p =>
            (tcc.1 + 1,
             if |p.1 - p.2| ≤ run.error_threshold.getD (tc.error_threshold.getD (1 / 100))
             then tcc.2 + 1 else tcc.2))
          acc2) acc) ((0 : Nat), (0 : Nat))
    if counts.1 > 0 then some ((counts.2 : ℚ) / (counts.1 : ℚ)) else none

/-! ## Black-box execution (`runner.py`, `FHERunner._run_black_box`)

The filesystem mirroring steps (copying challenge files and templates) do not
touch the outcome fields; the observable inputs are the build invocation's
behaviour and, per test-case directory, the run invocation's behaviour. -/

/-- Accumulator of the per-testcase loop: `total_accuracy`, `run_outputs`,
`all_success`, and the experiment's `error_message` being appended to. -/
structure BBAcc where
  total : ℚ
  outputs : List (List Char)
  allSuccess : Bool
  errMsg : List Char
  deriving DecidableEq, Repr

/-- The `for testcase in testcases` loop of `_run_black_box` (runner.py lines
122-138).  Each element carries the test case's directory name and the
behaviour of its `docker run`.  A `ValueError` escaping the accuracy parse
aborts the loop (and the caller) with `Except.error`. -/
def bbLoop (runTimeout : Nat) :
    List (List Char × DockerBehavior) → BBAcc → Except Unit BBAcc
  | [], acc => .ok acc
  | (name, b) :: rest, acc =>
    let ro := dockerRun runTimeout b
    let acc1 := { acc with
      outputs := acc.outputs ++ [("=== ".toList ++ name ++ " ===\n".toList) ++ ro.1] }
    if ro.2 ≠ 0 then
      bbLoop runTimeout rest { acc1 with
        allSuccess := false,
        errMsg := acc1.errMsg ++ "\nTestcase ".toList ++ name ++
          (" failed (exit " ++ toString ro.2 ++ "):\n").toList ++ pyTail 800 ro.1 }
    else
      match parseAccuracyBlackBox ro.1 with
      | .error e => .error e
      | .ok (some acc') => bbLoop runTimeout rest { acc1 with total := acc1.total + acc' }
      | .ok none => bbLoop runTimeout rest acc1

/-- Model of `FHERunner._run_black_box` (runner.py lines 55-147).  `buildB` is the
behaviour of `docker build`; `tests` lists the test-case directories (name and
`docker run` behaviour); an empty list models an absent or empty `tests/`
directory.  Image cleanup has no observable effect on the experiment. -/
def runBlackBox (buildTimeout runTimeout : Nat) (buildB : DockerBehavior)
    (tests : List (List Char × DockerBehavior)) (exp : FHEExperiment) :
    Except Unit FHEExperiment :=
  let bo := dockerRun buildTimeout buildB
  if bo.2 ≠ 0 then
    .ok { exp with
      build_success := false,
      error_message := ("Docker build failed (exit " ++ toString bo.2 ++ "):\n").toList ++
        pyTail 3000 bo.1,
      docker_output := bo.1 }
  else
    let exp1 := { exp with build_success := true }
    if tests.isEmpty then
      .ok { exp1 with
        run_success := false,
        error_message := "No testcase directories found in ".toList ++ "tests".toList,
        docker_output := bo.1 }
    else
      match bbLoop runTimeout tests ⟨0, [], true, exp1.error_message⟩ with
      | .error e => .error e
      | .ok acc =>
        .ok { exp1 with
          run_success := acc.allSuccess,
          docker_output := joinSep "\n\n".toList acc.outputs,
          error_message := acc.errMsg,
          accuracy := some (acc.total / (tests.length : ℚ)) }

/-! ## White-box execution (`runner.py`, `FHERunner._run_white_box`) -/

/-- The fixed compiler/linker markers of runner.py line 202. -/
def buildErrorKeywords : List (List Char) :=
  ["cmake error".toList, "compilation".toList, "error:".toList,
   "make[".toList, "undefined reference".toList]

/-- Test `any(kw in lower_out for kw in [...])` on the lowercased output. -/
def hasBuildErrorMarker (output : List Char) : Bool :=
  buildErrorKeywords.any (fun kw => containsSub kw (output.map Char.toLower))

/-- Model of `FHERunner._run_white_box` (runner.py lines 153-224), starting from the
single validator invocation: `out`/`rc` are the combined output and exit code
that `_docker_run` returned; `artifact` is `result.json` — `none` when the
file does not exist, `some content` when it does (`content = none` when its
text cannot be parsed).  The template/symlink materialisation steps do not
touch the outcome fields. -/
def runWhiteBox (out : List Char) (rc : Int) (artifact : Option (Option WBResult))
    (exp : FHEExperiment) : Except Unit FHEExperiment :=
  let exp0 := { exp with docker_output := out }
  if rc ≠ 0 then
    if hasBuildErrorMarker out then
      .ok { exp0 with
        build_success := false, run_success := false,
        error_message := "Compilation/build error:\n".toList ++ pyTail 3000 out }
    else
      .ok { exp0 with
        build_success := true, run_success := false,
        error_message := ("Runtime error (exit " ++ toString rc ++ "):\n").toList ++
          pyTail 3000 out }
  else
    let exp1 := { exp0 with build_success := true, run_success := true }
    match artifact with
    | some content => .ok { exp1 with accuracy := parseAccuracyWhiteBox content }
    | none =>
      match parseAccuracyFromOutput out with
      | .ok a => .ok { exp1 with accuracy := a }
      | .error e => .error e

/-! ## `FHERunner.develop` (runner.py lines 40-49) -/

/-- The two challenge types dispatched on in `develop`. -/
inductive ChallengeType where
  | black_box
  | white_box
  deriving DecidableEq, Repr

/-- Model of `FHERunner.develop`: dispatch on the scenario's challenge type.  For the
white-box branch the validator output/exit code come from `_docker_run` on
`wbB` with the run timeout. -/
def develop (ct : ChallengeType) (buildTimeout runTimeout : Nat)
    (buildB : DockerBehavior) (tests : List (List Char × DockerBehavior))
    (wbB : DockerBehavior) (wbArtifact : Option (Option WBResult))
    (exp : FHEExperiment) : Except Unit FHEExperiment :=
  match ct with
  | .black_box => runBlackBox buildTimeout runTimeout buildB tests exp
  | .white_box =>
    let ro := dockerRun runTimeout wbB
    runWhiteBox ro.1 ro.2 wbArtifact exp

/-! ## Structural patcher (`developer.py`, `FHECoder`)

The marker regex `void\s+\w+::eval\s*\(\s*\)\s*\{` is a chain of literals and
greedy character-class runs, each run's class disjoint from the character that
must follow it, so the Python match at a given start position is equivalent to
the deterministic maximal-munch pipeline below; `re.search` is the leftmost
position at which that pipeline succeeds. -/

/-- Consume an exact literal. -/
def dropLit (pat cs : List Char) : Option (List Char) :=
  if pat.isPrefixOf cs then some (cs.drop pat.length) else none

/-- Consume `\s+` (greedy, at least one character). -/
def dropSpaces1 (cs : List Char) : Option (List Char) :=
  if (cs.takeWhile isPySpace).isEmpty then none else some (cs.dropWhile isPySpace)

/-- Consume `\s*` (greedy). -/
def dropSpaces0 (cs : List Char) : Option (List Char) :=
  some (cs.dropWhile isPySpace)

/-- Consume `\w+` (greedy, at least one character). -/
def dropWord1 (cs : List Char) : Option (List Char) :=
  if (cs.takeWhile isWordChar).isEmpty then none else some (cs.dropWhile isWordChar)

/-- Consume one fixed character. -/
def dropChar (c : Char) : List Char → Option (List Char)
  | d :: ds => if d = c then some ds else none
  | [] => none

/-- Match `void\s+\w+::eval\s*\(\s*\)\s*\x7b` at the head of `cs`; on success
return the remainder after the opening brace. -/
def matchEval (cs : List Char) : Option (List Char) :=
  (dropLit "void".toList cs).bind fun c1 =>
  (dropSpaces1 c1).bind fun c2 =>
  (dropWord1 c2).bind fun c3 =>
  (dropLit "::eval".toList c3).bind fun c4 =>
  (dropSpaces0 c4).bind fun c5 =>
  (dropChar '(' c5).bind fun c6 =>
  (dropSpaces0 c6).bind fun c7 =>
  (dropChar ')' c7).bind fun c8 =>
  (dropSpaces0 c8).bind fun c9 =>
  dropChar '\x7b' c9

/-- The `re.search` scan for the marker: split the text at the leftmost match into
(text up to and including the opening brace, text after the opening brace). -/
def searchEvalSplit : List Char → Option (List Char × List Char)
  | [] => none
  | c :: tl =>
    match matchEval (c :: tl) with
    | some rest => some (((c :: tl).take ((c :: tl).length - rest.length), rest))
    | none => (searchEvalSplit tl).map (fun p => (c :: p.1, p.2))

/-- One step of the brace-depth counter. -/
def braceStep (c : Char) (d : Nat) : Nat :=
  if c = '\x7b' then d + 1 else if c = '\x7d' then d - 1 else d

/-- The `while pos < len and depth > 0` scan of developer.py (lines 147-153 and
169-176): number of characters consumed before the depth counter returns to
zero (or the text is exhausted), starting from depth `d`. -/
def braceAdvance : List Char → Nat → Nat
  | [], _ => 0
  | c :: cs, d => if d = 0 then 0 else 1 + braceAdvance cs (braceStep c d)

/-- True when the scan stops because the depth reached zero (rather than
running out of characters with the body still open). -/
def braceCloses : List Char → Nat → Bool
  | [], d => decide (d = 0)
  | c :: cs, d => if d = 0 then true else braceCloses cs (braceStep c d)

/-- Depth check before every character of `cs` stays positive (the scan
consumes all of `cs`). -/
def scanStaysPos : List Char → Nat → Bool
  | [], _ => true
  | c :: cs, d => decide (d ≠ 0) && scanStaysPos cs (braceStep c d)

/-- Depth after scanning all of `cs` from depth `d`. -/
def depthAfter : List Char → Nat → Nat
  | [], d => d
  | c :: cs, d => depthAfter cs (braceStep c d)

/-- Model of `FHECoder._inject_eval_body` (developer.py lines 157-179): find the marker,
brace-scan to the matching closing brace, and splice `"\n" + eval_body + "\n"`
between the braces.  `Except.error ()` is the `ValueError` raised when the
marker is absent. -/
def injectEvalBody (template_cpp eval_body : List Char) : Except Unit (List Char) :=
  match searchEvalSplit template_cpp with
  | none => .error ()
  | some (pre, after) =>
    let start := pre.length
    let pos := start + braceAdvance after 1
    .ok (template_cpp.take start ++ '\n' :: eval_body ++ '\n' :: template_cpp.drop (pos - 1))

/-- Model of `FHECoder._strip_eval_wrapper` (developer.py lines 137-155): if the marker
occurs, brace-scan the text after its opening brace and return the stripped
inner body; otherwise return the code unchanged.  (The regex
`void\s+\w+::eval\s*\(\s*\)\s*\x7b(.*)` with `DOTALL` captures everything after
the leftmost marker's opening brace.) -/
def stripEvalWrapper (code : List Char) : List Char :=
  match searchEvalSplit code with
  | none => code
  | some (_, body) =>
    let pos := braceAdvance body 1
    pyStrip (body.take (pos - 1))

/-- The patching slice of `FHECoder.develop` (developer.py lines 67-74): strip
a possible full-function wrapper from the generated code, then inject the body
into the template; a `ValueError` from the injection is re-raised as
`CoderError`. -/
inductive CoderOutcome where
  | success (cpp : List Char)
  | coderError
  deriving DecidableEq, Repr

/-- The strip-then-inject sequence of `develop` with its `try/except ValueError`. -/
def coderDevelopPatch (template_cpp response_code : List Char) : CoderOutcome :=
  match injectEvalBody template_cpp (stripEvalWrapper response_code) with
  | .ok cpp => .success cpp
  | .error _ => .coderError

/-! ## Specification-side helper functions

These restate, in the claims' vocabulary, the quantities the runner is claimed
to compute; the theorems below relate them to the executable model. -/

/-- The contribution of one test fixture to the accuracy numerator: its parsed
accuracy when its run exited 0 and the parse produced a value, else 0. -/
def fixtureContribution (runTimeout : Nat) (t : List Char × DockerBehavior) : ℚ :=
  let ro := dockerRun runTimeout t.2
  if ro.2 = 0 then
    match parseAccuracyBlackBox ro.1 with
    | .ok (some a) => a
    | _ => 0
  else 0

/-- True when running this fixture cannot make the accuracy parse raise:
either its run exits non-zero (so it is never parsed) or the parse returns. -/
def fixtureParseOk (runTimeout : Nat) (t : List Char × DockerBehavior) : Bool :=
  let ro := dockerRun runTimeout t.2
  if ro.2 = 0 then
    match parseAccuracyBlackBox ro.1 with
    | .ok _ => true
    | .error _ => false
  else true

/-- The (result, expected, threshold) slots of one `"runs"` entry, the
threshold being the run-level one when present, else the test-case default. -/
def runSlots (tcDefault : ℚ) (run : WBRun) : List (ℚ × ℚ × ℚ) :=
  (run.result.zip run.expected_output).map
    (fun p => (p.1, p.2, run.error_threshold.getD tcDefault))

/-- Slots of a list of runs sharing one test-case default threshold. -/
def runsSlots (tcDefault : ℚ) : List WBRun → List (ℚ × ℚ × ℚ)
  | [] => []
  | run :: rs => runSlots tcDefault run ++ runsSlots tcDefault rs

/-- Slots of one test case; the case-level threshold defaults to `0.01`. -/
def tcSlots (tc : WBTestcase) : List (ℚ × ℚ × ℚ) :=
  runsSlots (tc.error_threshold.getD (1 / 100)) tc.runs

/-- Slots of a list of test cases. -/
def tcsSlots : List WBTestcase → List (ℚ × ℚ × ℚ)
  | [] => []
  | tc :: ts => tcSlots tc ++ tcsSlots ts

/-- Every (result, expected, threshold) slot of the artifact. -/
def allSlots (d : WBResult) : List (ℚ × ℚ × ℚ) :=
  tcsSlots d.testcases

/-- A slot counts as correct exactly when `|result - expected| ≤ threshold`. -/
def slotCorrect (s : ℚ × ℚ × ℚ) : Bool :=
  decide (|s.1 - s.2.1| ≤ s.2.2)

/-- Structural characterisation of the text chunk consumed by one successful
match of the marker pattern `void\s+\w+::eval\s*\(\s*\)\s*\x7b`. -/
def IsMarkerChunk (m : List Char) : Prop :=
  ∃ s1 w1 s2 s3 s4,
    m = "void".toList ++ s1 ++ w1 ++ "::eval".toList ++ s2 ++
      '(' :: s3 ++ ')' :: s4 ++ ['\x7b'] ∧
    s1 ≠ [] ∧ (∀ c ∈ s1, isPySpace c = true) ∧
    w1 ≠ [] ∧ (∀ c ∈ w1, isWordChar c = true) ∧
    (∀ c ∈ s2, isPySpace c = true) ∧ (∀ c ∈ s3, isPySpace c = true) ∧
    (∀ c ∈ s4, isPySpace c = true)

end FHE

namespace FHE

/-- C1: The Judge's decision is true exactly when the build succeeded, the run
succeeded, the accuracy was parsed, and it reaches the threshold. -/
theorem generate_feedback_decision_iff (th : ℚ) (exp : FHEExperiment)
    (sota : Option ℚ) :
    (generate_feedback th exp sota).decision = true ↔
      exp.build_success = true ∧ exp.run_success = true ∧
        ∃ a, exp.accuracy = some a ∧ a ≥ th := by
  unfold generate_feedback
  rcases hb : exp.build_success with _ | _
  · simp
  · rcases hr : exp.run_success with _ | _
    · simp
    · rcases ha : exp.accuracy with _ | a
      · simp
      · rcases hs : sota with _ | b <;>
        · simp only [ha, Bool.true_eq_false, if_false, decide_eq_true_eq]
          constructor
          · intro h
            exact ⟨trivial, trivial, a, rfl, h⟩
          · rintro ⟨-, -, a', ha', hth⟩
            cases ha'
            exact hth

/-! ## Text helper lemmas -/

theorem toList_append (a b : String) : (a ++ b).toList = a.toList ++ b.toList :=
  String.data_append a b

theorem pyTail_of_le {l : List Char} {n : Nat} (h : l.length ≤ n) : pyTail n l = l := by
  simp [pyTail, Nat.sub_eq_zero_of_le h]

theorem infix_append_left (x : List Char) {l m : List Char} (h : l <:+: m) :
    l <:+: x ++ m := by
  obtain ⟨s, t, rfl⟩ := h
  exact ⟨x ++ s, t, by simp⟩

theorem containsSub_iff (pat hay : List Char) :
    containsSub pat hay = true ↔ pat <:+: hay := by
  induction hay with
  | nil => simp [containsSub, List.isEmpty_iff]
  | cons c tl ih =>
    rw [containsSub, Bool.or_eq_true, ih, List.isPrefixOf_iff_prefix,
      List.infix_cons_iff]

theorem cmake_marker {out : List Char} (h : "CMake Error".toList <:+: out) :
    hasBuildErrorMarker out = true := by
  have h2 : "cmake error".toList <:+: out.map Char.toLower := by
    obtain ⟨s, t, rfl⟩ := h
    refine ⟨s.map Char.toLower, t.map Char.toLower, ?_⟩
    simp only [List.map_append]
    rw [(by decide : "CMake Error".toList.map Char.toLower = "cmake error".toList)]
  unfold hasBuildErrorMarker buildErrorKeywords
  simp only [List.any_cons, Bool.or_eq_true]
  exact Or.inl ((containsSub_iff _ _).mpr h2)

theorem timeout_msg_mentions (n : Nat) :
    "timed out".toList <:+: (dockerRun n DockerBehavior.timesOut).1 := by
  show "timed out".toList <:+:
    ("Docker command timed out after " ++ toString n ++ "s").toList
  refine ⟨"Docker command ".toList,
    " after ".toList ++ (toString n).toList ++ "s".toList, ?_⟩
  rw [toList_append, toList_append,
    (by decide : "Docker command timed out after ".toList =
      "Docker command ".toList ++ "timed out".toList ++ " after ".toList)]
  simp

/-- C5: When the validator exits non-zero, the outcome is a build failure
(both flags false) exactly when the lowercased output contains one of the
fixed compiler/linker markers, and otherwise a runtime failure
(`build_success` true, `run_success` false); in both cases the error message
carries the tail of the output.  In particular output containing
`"CMake Error"` is classified as a build failure. -/
theorem whitebox_nonzero_exit_classification (out : List Char) (rc : Int)
    (artifact : Option (Option WBResult)) (exp : FHEExperiment) (h : rc ≠ 0) :
    ∃ e, runWhiteBox out rc artifact exp = .ok e ∧
      ((e.build_success = false ∧ e.run_success = false) ↔
        hasBuildErrorMarker out = true) ∧
      (hasBuildErrorMarker out = false →
        e.build_success = true ∧ e.run_success = false) ∧
      pyTail 3000 out <:+ e.error_message ∧
      ("CMake Error".toList <:+: out →
        e.build_success = false ∧ e.run_success = false) := by
  unfold runWhiteBox
  rw [if_pos h]
  cases hk : hasBuildErrorMarker out with
  | true =>
    rw [if_pos rfl]
    refine ⟨_, rfl, by simp, by simp, List.suffix_append _ _, fun _ => ⟨rfl, rfl⟩⟩
  | false =>
    rw [if_neg (by simp)]
    refine ⟨_, rfl, by simp, fun _ => ⟨rfl, rfl⟩, List.suffix_append _ _, ?_⟩
    intro hin
    rw [cmake_marker hin] at hk
    cases hk

/-- C5 witness: a validator exit of 1 whose output contains `"CMake Error"`
is classified as a build failure. -/
theorem whitebox_nonzero_exit_classification_witness :
    (1 : Int) ≠ 0 ∧
    ∃ e, runWhiteBox "CMake Error at CMakeLists.txt".toList 1 none
        FHEExperiment.init = .ok e ∧
      ((e.build_success = false ∧ e.run_success = false) ↔
        hasBuildErrorMarker "CMake Error at CMakeLists.txt".toList = true) ∧
      (hasBuildErrorMarker "CMake Error at CMakeLists.txt".toList = false →
        e.build_success = true ∧ e.run_success = false) ∧
      pyTail 3000 "CMake Error at CMakeLists.txt".toList <:+ e.error_message ∧
      ("CMake Error".toList <:+: "CMake Error at CMakeLists.txt".toList →
        e.build_success = false ∧ e.run_success = false) :=
  ⟨by decide,
    whitebox_nonzero_exit_classification "CMake Error at CMakeLists.txt".toList 1
      none FHEExperiment.init (by decide)⟩

set_option maxRecDepth 4000 in
/-- C6: A phase that exceeds its timeout yields a synthetic message mentioning
the timeout with exit status 1 (non-zero), absorbed as an ordinary failure: a
build timeout gives `build_success = false` with the timeout mentioned in the
error message, a run timeout gives `run_success = false` likewise, and in
both cases the runner returns normally.  (The two length bounds state that the
synthetic message fits inside the `[-3000:]` / `[-800:]` tails kept in the
error message; they hold for every realistic timeout value.) -/
theorem timeout_reported_as_failure (bt rt : Nat)
    (tests : List (List Char × DockerBehavior)) (exp : FHEExperiment)
    (name out : List Char)
    (hbt : (dockerRun bt DockerBehavior.timesOut).1.length ≤ 3000)
    (hrt : (dockerRun rt DockerBehavior.timesOut).1.length ≤ 800) :
    ((dockerRun bt DockerBehavior.timesOut).2 = 1 ∧
      "timed out".toList <:+: (dockerRun bt DockerBehavior.timesOut).1) ∧
    (∃ e, runBlackBox bt rt DockerBehavior.timesOut tests exp = .ok e ∧
      e.build_success = false ∧ "timed out".toList <:+: e.error_message) ∧
    (∃ e, runBlackBox bt rt (DockerBehavior.completes out 0) [(name, DockerBehavior.timesOut)]
        FHEExperiment.init = .ok e ∧
      e.run_success = false ∧ "timed out".toList <:+: e.error_message) := by
  refine ⟨⟨rfl, timeout_msg_mentions bt⟩, ?_, ?_⟩
  · refine ⟨_, rfl, rfl, ?_⟩
    show "timed out".toList <:+:
      (("Docker build failed (exit " ++ toString (1 : Int) ++ "):\n").toList ++
        pyTail 3000 (dockerRun bt DockerBehavior.timesOut).1)
    rw [pyTail_of_le hbt]
    exact infix_append_left _ (timeout_msg_mentions bt)
  · refine ⟨_, rfl, rfl, ?_⟩
    show "timed out".toList <:+:
      ([] ++ "\nTestcase ".toList ++ name ++
        (" failed (exit " ++ toString (1 : Int) ++ "):\n").toList ++
        pyTail 800 (dockerRun rt DockerBehavior.timesOut).1)
    rw [pyTail_of_le hrt]
    exact infix_append_left _ (timeout_msg_mentions rt)

/-- C6 witness: a build timeout at the configured 600 s produces a failed
build whose error text mentions the timeout, with no exception raised. -/
theorem timeout_reported_as_failure_witness :
    ((dockerRun 600 DockerBehavior.timesOut).1.length ≤ 3000 ∧
      (dockerRun 600 DockerBehavior.timesOut).1.length ≤ 800) ∧
    ((dockerRun 600 DockerBehavior.timesOut).2 = 1 ∧
      "timed out".toList <:+: (dockerRun 600 DockerBehavior.timesOut).1) ∧
    (∃ e, runBlackBox 600 600 DockerBehavior.timesOut [] FHEExperiment.init = .ok e ∧
      e.build_success = false ∧ "timed out".toList <:+: e.error_message) := by
  refine ⟨⟨by decide, by decide⟩, ?_⟩
  have h := timeout_reported_as_failure 600 600 [] FHEExperiment.init [] []
    (by decide) (by decide)
  exact ⟨h.1, h.2.1⟩


/-- C10: In a black-box run whose build succeeds and that has at least one
test fixture, the returned experiment's accuracy is always a numeric value —
also when `run_success` is false (a failing fixture keeps a numeric, dragged-
down mean), so a non-`None` accuracy does not imply a successful run. -/
theorem blackbox_accuracy_set_even_on_run_failure :
    (∀ (bt rt : Nat) (buildB : DockerBehavior)
        (tests : List (List Char × DockerBehavior)) (exp e : FHEExperiment),
        (dockerRun bt buildB).2 = 0 → tests ≠ [] →
        runBlackBox bt rt buildB tests exp = .ok e → e.accuracy ≠ none) ∧
    (∃ e, runBlackBox 600 600 (DockerBehavior.completes [] 0)
        [("t1".toList, DockerBehavior.completes [] 1)] FHEExperiment.init = .ok e ∧
      e.run_success = false ∧ e.accuracy = some 0) := by
  constructor
  · intro bt rt buildB tests exp e h0 hne hrun
    unfold runBlackBox at hrun
    rw [if_neg (by simp [h0])] at hrun
    rw [if_neg (by simpa [List.isEmpty_iff] using hne)] at hrun
    cases hloop : bbLoop rt tests ⟨0, [], true, ({ exp with build_success := true } : FHEExperiment).error_message⟩ with
    | error err => rw [hloop] at hrun; cases hrun
    | ok acc =>
      rw [hloop] at hrun
      cases hrun
      simp
  · refine ⟨_, rfl, rfl, ?_⟩
    norm_num

/-- C10 witness: concrete instantiation of the universal part on a run whose
single fixture succeeds with a parsed accuracy. -/
theorem blackbox_accuracy_set_even_on_run_failure_witness :
    (dockerRun 600 (DockerBehavior.completes [] 0)).2 = 0 ∧
    ([("t1".toList, DockerBehavior.completes "Accuracy: 0.5".toList 0)] :
      List (List Char × DockerBehavior)) ≠ [] ∧
    ∃ e, runBlackBox 600 600 (DockerBehavior.completes [] 0)
        [("t1".toList, DockerBehavior.completes "Accuracy: 0.5".toList 0)]
        FHEExperiment.init = .ok e ∧ e.accuracy ≠ none :=
  by
  refine ⟨rfl, by decide, ?_⟩
  have h := blackbox_accuracy_set_even_on_run_failure.1 600 600
    (DockerBehavior.completes [] 0)
    [("t1".toList, DockerBehavior.completes "Accuracy: 0.5".toList 0)]
    FHEExperiment.init _ rfl (by decide) rfl
  exact ⟨_, rfl, h⟩

/-- C8: When the template does not contain the marker pattern
`void <Identifier>::eval() \x7b`, the injection fails with the designated
patch error — the `ValueError` that `FHECoder.develop` wraps into a
`CoderError` — for every candidate body; the embedding is a pure function, so
the input template is left untouched on this path. -/
theorem inject_fails_without_marker (template body code : List Char)
    (h : searchEvalSplit template = none) :
    injectEvalBody template body = .error () ∧
      coderDevelopPatch template code = .coderError := by
  unfold coderDevelopPatch injectEvalBody
  rw [h]
  exact ⟨rfl, rfl⟩

/-- C8 witness: a template with no `eval` marker. -/
theorem inject_fails_without_marker_witness :
    searchEvalSplit "int main() \x7b return 0; \x7d".toList = none ∧
    injectEvalBody "int main() \x7b return 0; \x7d".toList "x".toList = .error () ∧
    coderDevelopPatch "int main() \x7b return 0; \x7d".toList "x".toList = .coderError := by
  refine ⟨by decide, ?_⟩
  exact inject_fails_without_marker _ "x".toList "x".toList (by decide)

/-- C3 counterexample: `develop` does not absorb every failure for every
output content — a fixture output whose matched accuracy token is not a valid
float literal (here `"Accuracy: 1.2.3"`) makes `float()` raise `ValueError`,
which escapes `FHERunner.develop` to its caller. -/
theorem develop_can_raise_counterexample :
    develop ChallengeType.black_box 600 600 (DockerBehavior.completes [] 0)
      [("t1".toList, DockerBehavior.completes "Accuracy: 1.2.3".toList 0)]
      (DockerBehavior.completes [] 0) none FHEExperiment.init = .error () := by
  rfl

/-- C7 counterexample: inject-then-extract does not return every body
unchanged — the extraction ends with `str.strip()`, so the injected body
`" x "` comes back as `"x"`. -/
theorem inject_strip_roundtrip_counterexample :
    injectEvalBody "void A::eval() \x7b\x7d".toList " x ".toList =
      .ok "void A::eval() \x7b\n x \n\x7d".toList ∧
    stripEvalWrapper "void A::eval() \x7b\n x \n\x7d".toList = "x".toList ∧
    "x".toList ≠ " x ".toList := by
  exact ⟨rfl, by decide, by decide⟩

/-- C9 counterexample: `_strip_eval_wrapper` is not idempotent — when the
extracted body itself contains the marker, a second application strips again
(here one strip gives `"void B::eval() \x7b x \x7d"`, two strips give
`"x"`). -/
theorem strip_not_idempotent_counterexample :
    stripEvalWrapper (stripEvalWrapper
        "void A::eval() \x7b void B::eval() \x7b x \x7d \x7d".toList) ≠
      stripEvalWrapper "void A::eval() \x7b void B::eval() \x7b x \x7d \x7d".toList := by
  decide


/-! ## Black-box loop lemmas -/

theorem bbLoop_total (rt : Nat) (tests : List (List Char × DockerBehavior))
    (acc acc2 : BBAcc) (h : bbLoop rt tests acc = .ok acc2) :
    acc2.total = acc.total + (tests.map (fixtureContribution rt)).sum := by
  induction tests generalizing acc with
  | nil =>
    cases h
    simp
  | cons t ts ih =>
    obtain ⟨name, b⟩ := t
    simp only [bbLoop] at h
    by_cases h0 : (dockerRun rt b).2 ≠ 0
    · rw [if_pos h0] at h
      rw [ih _ h]
      simp only [List.map_cons, List.sum_cons, fixtureContribution, if_neg h0]
      ring
    · rw [if_neg h0] at h
      cases hp : parseAccuracyBlackBox (dockerRun rt b).1 with
      | error err =>
        rw [hp] at h
        cases h
      | ok o =>
        rw [hp] at h
        cases o with
        | some a =>
          rw [ih _ h]
          simp only [List.map_cons, List.sum_cons, fixtureContribution,
            if_pos (not_not.mp h0), hp]
          ring
        | none =>
          rw [ih _ h]
          simp only [List.map_cons, List.sum_cons, fixtureContribution,
            if_pos (not_not.mp h0), hp]
          ring

theorem bbLoop_ok (rt : Nat) (tests : List (List Char × DockerBehavior))
    (acc : BBAcc) (h : ∀ t ∈ tests, fixtureParseOk rt t = true) :
    ∃ acc2, bbLoop rt tests acc = .ok acc2 := by
  induction tests generalizing acc with
  | nil => exact ⟨acc, rfl⟩
  | cons t ts ih =>
    obtain ⟨name, b⟩ := t
    simp only [bbLoop]
    by_cases h0 : (dockerRun rt b).2 ≠ 0
    · rw [if_pos h0]
      exact ih _ (fun u hu => h u (List.mem_cons_of_mem _ hu))
    · rw [if_neg h0]
      have hp := h (name, b) (List.mem_cons_self _ _)
      simp only [fixtureParseOk, if_pos (not_not.mp h0)] at hp
      cases hpp : parseAccuracyBlackBox (dockerRun rt b).1 with
      | error err =>
        rw [hpp] at hp
        cases hp
      | ok o =>
        cases o with
        | some a => exact ih _ (fun u hu => h u (List.mem_cons_of_mem _ hu))
        | none => exact ih _ (fun u hu => h u (List.mem_cons_of_mem _ hu))

/-- C2: In a black-box run whose build succeeds and that has at least one
test fixture, the final accuracy is the sum of the per-fixture accuracies —
parsed from fixtures that exited 0 and yielded a value, all other fixtures
contributing 0 — divided by the number of fixtures attempted. -/
theorem blackbox_accuracy_is_mean (bt rt : Nat) (buildB : DockerBehavior)
    (tests : List (List Char × DockerBehavior)) (exp e : FHEExperiment)
    (hbuild : (dockerRun bt buildB).2 = 0) (hne : tests ≠ [])
    (hrun : runBlackBox bt rt buildB tests exp = .ok e) :
    e.accuracy =
      some ((tests.map (fixtureContribution rt)).sum / (tests.length : ℚ)) := by
  unfold runBlackBox at hrun
  rw [if_neg (by simp [hbuild])] at hrun
  rw [if_neg (by simpa [List.isEmpty_iff] using hne)] at hrun
  cases hloop : bbLoop rt tests
      ⟨0, [], true, ({ exp with build_success := true } : FHEExperiment).error_message⟩ with
  | error err =>
    rw [hloop] at hrun
    cases hrun
  | ok acc =>
    rw [hloop] at hrun
    cases hrun
    have := bbLoop_total rt tests _ _ hloop
    simp only [this]
    norm_num

/-- C2 witness: two fixtures, one parsed at 0.5 and one failing, give mean
(0.5 + 0) / 2. -/
theorem blackbox_accuracy_is_mean_witness :
    (dockerRun 600 (DockerBehavior.completes [] 0)).2 = 0 ∧
    ([("t1".toList, DockerBehavior.completes "Accuracy: 0.5".toList 0),
      ("t2".toList, DockerBehavior.completes "no score".toList 1)] :
        List (List Char × DockerBehavior)) ≠ [] ∧
    ∃ e, runBlackBox 600 600 (DockerBehavior.completes [] 0)
        [("t1".toList, DockerBehavior.completes "Accuracy: 0.5".toList 0),
         ("t2".toList, DockerBehavior.completes "no score".toList 1)]
        FHEExperiment.init = .ok e ∧
      e.accuracy =
        some ((([("t1".toList, DockerBehavior.completes "Accuracy: 0.5".toList 0),
          ("t2".toList, DockerBehavior.completes "no score".toList 1)].map
            (fixtureContribution 600)).sum) / 2) := by
  refine ⟨rfl, by decide, ?_⟩
  have h := blackbox_accuracy_is_mean 600 600 (DockerBehavior.completes [] 0)
    [("t1".toList, DockerBehavior.completes "Accuracy: 0.5".toList 0),
     ("t2".toList, DockerBehavior.completes "no score".toList 1)]
    FHEExperiment.init _ rfl (by decide) rfl
  exact ⟨_, rfl, h⟩

/-- C3 (amended): `FHERunner.develop` returns an experiment with every failure
encoded in its fields and raises nothing, provided every accuracy token that
reaches `float()` is a valid float literal: every black-box fixture that exits
0 must have a parseable output, and in the white-box artifact-absent fallback
the combined output must be parseable.  (Without that proviso `float()` can
raise, see the counterexample.) -/
theorem develop_absorbs_failures (ct : ChallengeType) (bt rt : Nat)
    (buildB : DockerBehavior) (tests : List (List Char × DockerBehavior))
    (wbB : DockerBehavior) (wbArtifact : Option (Option WBResult))
    (exp : FHEExperiment)
    (hbb : ∀ t ∈ tests, fixtureParseOk rt t = true)
    (hwb : (dockerRun rt wbB).2 = 0 → wbArtifact = none →
      parseAccuracyFromOutput (dockerRun rt wbB).1 ≠ .error ()) :
    ∃ e, develop ct bt rt buildB tests wbB wbArtifact exp = .ok e := by
  cases ct with
  | black_box =>
    unfold develop runBlackBox
    by_cases h0 : (dockerRun bt buildB).2 ≠ 0
    · rw [if_pos h0]
      exact ⟨_, rfl⟩
    · rw [if_neg h0]
      by_cases hemp : tests.isEmpty
      · rw [if_pos hemp]
        exact ⟨_, rfl⟩
      · rw [if_neg hemp]
        obtain ⟨acc2, hacc⟩ := bbLoop_ok rt tests _ hbb
        rw [hacc]
        exact ⟨_, rfl⟩
  | white_box =>
    unfold develop runWhiteBox
    by_cases h0 : (dockerRun rt wbB).2 ≠ 0
    · rw [if_pos h0]
      by_cases hk : hasBuildErrorMarker (dockerRun rt wbB).1
      · rw [if_pos hk]
        exact ⟨_, rfl⟩
      · rw [if_neg hk]
        exact ⟨_, rfl⟩
    · rw [if_neg h0]
      cases wbArtifact with
      | some content => exact ⟨_, rfl⟩
      | none =>
        cases hp : parseAccuracyFromOutput (dockerRun rt wbB).1 with
        | ok a =>
          exact ⟨_, rfl⟩
        | error err =>
          cases err
          exact absurd hp (hwb (not_not.mp h0) rfl)

/-- C3 witness: a black-box run with one well-formed fixture output completes
without an exception. -/
theorem develop_absorbs_failures_witness :
    (∀ t ∈ ([("t1".toList, DockerBehavior.completes "Accuracy: 0.92".toList 0)] :
        List (List Char × DockerBehavior)), fixtureParseOk 600 t = true) ∧
    ∃ e, develop ChallengeType.black_box 600 600 (DockerBehavior.completes [] 0)
        [("t1".toList, DockerBehavior.completes "Accuracy: 0.92".toList 0)]
        (DockerBehavior.completes [] 0) none FHEExperiment.init = .ok e := by
  refine ⟨by decide, ?_⟩
  exact develop_absorbs_failures ChallengeType.black_box 600 600
    (DockerBehavior.completes [] 0)
    [("t1".toList, DockerBehavior.completes "Accuracy: 0.92".toList 0)]
    (DockerBehavior.completes [] 0) none FHEExperiment.init (by decide)
    (fun _ _ h => Except.noConfusion h)


/-! ## White-box slot-count lemmas -/

theorem slotFold_spec (th : ℚ) (pairs : List (ℚ × ℚ)) (t c : Nat) :
    pairs.foldl
      (fun tcc p => (tcc.1 + 1, if |p.1 - p.2| ≤ th then tcc.2 + 1 else tcc.2))
      (t, c) =
      (t + pairs.length, c + pairs.countP (fun p => decide (|p.1 - p.2| ≤ th))) := by
  induction pairs generalizing t c with
  | nil => simp
  | cons p ps ih =>
    simp only [List.foldl_cons, List.length_cons, List.countP_cons]
    rw [ih]
    by_cases hp : |p.1 - p.2| ≤ th
    · simp [hp, Prod.mk.injEq]
      try omega
    · simp [hp, Prod.mk.injEq]
      try omega

theorem runsFold_spec (td : ℚ) (runs : List WBRun) (t c : Nat) :
    runs.foldl (fun acc2 run =>
      (run.result.zip run.expected_output).foldl
        (fun tcc p =>
          (tcc.1 + 1,
           if |p.1 - p.2| ≤ run.error_threshold.getD td then tcc.2 + 1 else tcc.2))
        acc2) (t, c) =
      (t + (runsSlots td runs).length, c + (runsSlots td runs).countP slotCorrect) := by
  induction runs generalizing t c with
  | nil => simp [runsSlots]
  | cons run rs ih =>
    simp only [List.foldl_cons]
    rw [slotFold_spec, ih]
    simp only [runsSlots, List.length_append, List.countP_append, runSlots,
      List.length_map, List.countP_map, Prod.mk.injEq]
    constructor
    · omega
    · have : ((slotCorrect ∘ fun p => (p.1, p.2, run.error_threshold.getD td)) :
          ℚ × ℚ → Bool) =
          fun p => decide (|p.1 - p.2| ≤ run.error_threshold.getD td) := rfl
      rw [this]
      omega

theorem tcsFold_spec (tcs : List WBTestcase) (t c : Nat) :
    tcs.foldl (fun acc tc =>
      tc.runs.foldl (fun acc2 run =>
        (run.result.zip run.expected_output).foldl
          (fun tcc p =>
            (tcc.1 + 1,
             if |p.1 - p.2| ≤ run.error_threshold.getD (tc.error_threshold.getD (1 / 100))
             then tcc.2 + 1 else tcc.2))
          acc2) acc) (t, c) =
      (t + (tcsSlots tcs).length, c + (tcsSlots tcs).countP slotCorrect) := by
  induction tcs generalizing t c with
  | nil => simp [tcsSlots]
  | cons tc ts ih =>
    simp only [List.foldl_cons]
    rw [runsFold_spec, ih]
    simp only [tcsSlots, tcSlots, List.length_append, List.countP_append,
      Prod.mk.injEq]
    omega

/-- C4: In the externally-validated variant, a (result, expected) slot counts
as correct exactly when `|result - expected| ≤ threshold` with the run-level
threshold if present, else the case-level one, else 0.01 (this is what
`allSlots`/`slotCorrect` say); the parsed accuracy is correct slots over total
slots, `none` on zero slots or an unparseable artifact; and when the artifact
file is absent the runner takes its accuracy from the output-text scan. -/
theorem whitebox_accuracy_spec (d : WBResult) (out : List Char)
    (exp : FHEExperiment) :
    (parseAccuracyWhiteBox (some d) =
      if 0 < (allSlots d).length
      then some (((allSlots d).countP slotCorrect : ℚ) / ((allSlots d).length : ℚ))
      else none) ∧
    parseAccuracyWhiteBox none = none ∧
    (∀ a, parseAccuracyFromOutput out = .ok a →
      ∃ e, runWhiteBox out 0 none exp = .ok e ∧ e.accuracy = a) := by
  refine ⟨?_, rfl, ?_⟩
  · simp only [parseAccuracyWhiteBox]
    rw [tcsFold_spec]
    simp [allSlots]
  · intro a hp
    unfold runWhiteBox
    rw [if_neg (by simp)]
    rw [hp]
    exact ⟨_, rfl, rfl⟩

/-- C4 witness: with the artifact absent, the accuracy comes from the
output-text scan. -/
theorem whitebox_accuracy_spec_witness :
    parseAccuracyFromOutput "accuracy: 0.75".toList = .ok (some (3 / 4)) ∧
    ∃ e, runWhiteBox "accuracy: 0.75".toList 0 none FHEExperiment.init = .ok e ∧
      e.accuracy = some (3 / 4) := by
  have h1 : parseAccuracyFromOutput "accuracy: 0.75".toList =
      .ok (some (floatVal ['0', '.', '7', '5'])) := rfl
  have h2 : floatVal ['0', '.', '7', '5'] = 3 / 4 := by
    have d1 : digitsToNat ['0'] = 0 := rfl
    have d2 : digitsToNat ['7', '5'] = 75 := rfl
    show ((digitsToNat ['0'] : ℚ) + (digitsToNat ['7', '5'] : ℚ) / (10 : ℚ) ^ (2 : Nat) = 3 / 4)
    rw [d1, d2]
    norm_num
  rw [h2] at h1
  exact ⟨h1, (whitebox_accuracy_spec ⟨[]⟩ "accuracy: 0.75".toList FHEExperiment.init).2.2
    (some (3 / 4)) h1⟩


/-! ## Character-class and scanning lemmas for the structural patcher -/

theorem space_cases {c : Char} (h : isPySpace c = true) :
    c = ' ' ∨ c = '\t' ∨ c = '\n' ∨ c = '\r' ∨ c = '\x0b' ∨ c = '\x0c' := by
  simpa [isPySpace, or_assoc] using h

theorem space_not_word {c : Char} (h : isPySpace c = true) : isWordChar c = false := by
  rcases space_cases h with rfl | rfl | rfl | rfl | rfl | rfl <;> decide

theorem word_not_space {c : Char} (h : isWordChar c = true) : isPySpace c = false := by
  cases hs : isPySpace c with
  | false => rfl
  | true => rw [space_not_word hs] at h; cases h

theorem space_ne_brace {c : Char} (h : isPySpace c = true) : c ≠ '\x7b' := by
  rcases space_cases h with rfl | rfl | rfl | rfl | rfl | rfl <;> decide

theorem word_ne_brace {c : Char} (h : isWordChar c = true) : c ≠ '\x7b' := by
  intro hc
  subst hc
  cases h

theorem takeWhile_append_of_all {p : Char → Bool} {s r : List Char}
    (hs : ∀ c ∈ s, p c = true) (hr : ∀ c, r.head? = some c → p c = false) :
    (s ++ r).takeWhile p = s ∧ (s ++ r).dropWhile p = r := by
  induction s with
  | nil =>
    cases r with
    | nil => simp
    | cons c tl =>
      have hc := hr c rfl
      simp [List.takeWhile_cons, List.dropWhile_cons, hc]
  | cons a s ih =>
    have ha := hs a (List.mem_cons_self _ _)
    have ih2 := ih (fun c hc => hs c (List.mem_cons_of_mem _ hc))
    simp [List.takeWhile_cons, List.dropWhile_cons, ha, ih2.1, ih2.2]

theorem head_dropWhile_false (p : Char → Bool) (l : List Char) :
    ∀ c, (l.dropWhile p).head? = some c → p c = false := by
  induction l with
  | nil => intro c h; cases h
  | cons a tl ih =>
    intro c h
    rw [List.dropWhile_cons] at h
    by_cases hp : p a = true
    · rw [if_pos hp] at h
      exact ih c h
    · rw [if_neg hp] at h
      injection h with h
      subst h
      simpa using hp

theorem dropLit_self (pat r : List Char) : dropLit pat (pat ++ r) = some r := by
  unfold dropLit
  rw [if_pos ( List.isPrefixOf_iff_prefix.mpr ⟨r, rfl⟩)]
  simp

theorem dropLit_eq {pat cs r : List Char} (h : dropLit pat cs = some r) :
    cs = pat ++ r := by
  unfold dropLit at h
  by_cases hp : pat.isPrefixOf cs
  · rw [if_pos hp] at h
    injection h with h
    obtain ⟨t, rfl⟩ := List.isPrefixOf_iff_prefix.mp hp
    rw [← h]
    simp
  · rw [if_neg hp] at h
    cases h

theorem dropSpaces1_eq {cs r : List Char} (h : dropSpaces1 cs = some r) :
    ∃ s, cs = s ++ r ∧ s ≠ [] ∧ (∀ c ∈ s, isPySpace c = true) ∧
      (∀ c, r.head? = some c → isPySpace c = false) := by
  unfold dropSpaces1 at h
  by_cases he : (cs.takeWhile isPySpace).isEmpty
  · rw [if_pos he] at h
    cases h
  · rw [if_neg he] at h
    injection h with h
    refine ⟨cs.takeWhile isPySpace, ?_, by simpa [List.isEmpty_iff] using he,
      fun c hc => List.mem_takeWhile_imp hc, ?_⟩
    · rw [← h]
      exact (List.takeWhile_append_dropWhile isPySpace cs).symm
    · rw [← h]
      exact head_dropWhile_false isPySpace cs

theorem dropWord1_eq {cs r : List Char} (h : dropWord1 cs = some r) :
    ∃ w, cs = w ++ r ∧ w ≠ [] ∧ (∀ c ∈ w, isWordChar c = true) ∧
      (∀ c, r.head? = some c → isWordChar c = false) := by
  unfold dropWord1 at h
  by_cases he : (cs.takeWhile isWordChar).isEmpty
  · rw [if_pos he] at h
    cases h
  · rw [if_neg he] at h
    injection h with h
    refine ⟨cs.takeWhile isWordChar, ?_, by simpa [List.isEmpty_iff] using he,
      fun c hc => List.mem_takeWhile_imp hc, ?_⟩
    · rw [← h]
      exact (List.takeWhile_append_dropWhile isWordChar cs).symm
    · rw [← h]
      exact head_dropWhile_false isWordChar cs

theorem dropSpaces0_eq {cs r : List Char} (h : dropSpaces0 cs = some r) :
    ∃ s, cs = s ++ r ∧ (∀ c ∈ s, isPySpace c = true) ∧
      (∀ c, r.head? = some c → isPySpace c = false) := by
  unfold dropSpaces0 at h
  injection h with h
  refine ⟨cs.takeWhile isPySpace, ?_, fun c hc => List.mem_takeWhile_imp hc, ?_⟩
  · rw [← h]
    exact (List.takeWhile_append_dropWhile isPySpace cs).symm
  · rw [← h]
    exact head_dropWhile_false isPySpace cs

theorem dropChar_eq {c : Char} {cs r : List Char} (h : dropChar c cs = some r) :
    cs = c :: r := by
  cases cs with
  | nil => cases h
  | cons d ds =>
    simp only [dropChar] at h
    by_cases hd : d = c
    · rw [if_pos hd] at h
      injection h with h
      rw [hd, h]
    · rw [if_neg hd] at h
      cases h


theorem head_append_of_ne_nil {w X : List Char} (hw : w ≠ []) :
    ∀ c, (w ++ X).head? = some c → c ∈ w := by
  cases w with
  | nil => exact absurd rfl hw
  | cons a tl =>
    intro c h
    simp only [List.cons_append, List.head?_cons, Option.some.injEq] at h
    rw [← h]
    exact List.mem_cons_self _ _

theorem head_cons_false {p : Char → Bool} {a : Char} {X : List Char}
    (ha : p a = false) : ∀ c, (a :: X).head? = some c → p c = false := by
  intro c hc
  simp only [List.head?_cons, Option.some.injEq] at hc
  rw [← hc]
  exact ha

theorem dropSpaces1_self {s r : List Char} (hne : s ≠ [])
    (hs : ∀ c ∈ s, isPySpace c = true)
    (hr : ∀ c, r.head? = some c → isPySpace c = false) :
    dropSpaces1 (s ++ r) = some r := by
  obtain ⟨ht, hd⟩ := takeWhile_append_of_all hs hr
  unfold dropSpaces1
  rw [ht, hd, if_neg (by simpa [List.isEmpty_iff] using hne)]

theorem dropWord1_self {s r : List Char} (hne : s ≠ [])
    (hs : ∀ c ∈ s, isWordChar c = true)
    (hr : ∀ c, r.head? = some c → isWordChar c = false) :
    dropWord1 (s ++ r) = some r := by
  obtain ⟨ht, hd⟩ := takeWhile_append_of_all hs hr
  unfold dropWord1
  rw [ht, hd, if_neg (by simpa [List.isEmpty_iff] using hne)]

theorem dropSpaces0_self {s r : List Char} (hs : ∀ c ∈ s, isPySpace c = true)
    (hr : ∀ c, r.head? = some c → isPySpace c = false) :
    dropSpaces0 (s ++ r) = some r := by
  obtain ⟨-, hd⟩ := takeWhile_append_of_all hs hr
  unfold dropSpaces0
  rw [hd]

theorem dropChar_self (c : Char) (r : List Char) : dropChar c (c :: r) = some r := by
  simp [dropChar]

theorem matchEval_marker {m : List Char} (h : IsMarkerChunk m) (w : List Char) :
    matchEval (m ++ w) = some w := by
  obtain ⟨s1, w1, s2, s3, s4, rfl, hs1ne, hs1, hw1ne, hw1, hs2, hs3, hs4⟩ := h
  simp only [List.append_assoc, List.cons_append, List.singleton_append,
    List.nil_append]
  unfold matchEval
  rw [dropLit_self]
  simp only [Option.some_bind]
  rw [dropSpaces1_self hs1ne hs1
    (fun c hc => word_not_space (hw1 c (head_append_of_ne_nil hw1ne c hc)))]
  simp only [Option.some_bind]
  rw [show ("::eval".toList ++ (s2 ++ ('(' :: (s3 ++ (')' :: (s4 ++ '\x7b' :: w)))))) =
      ':' :: (':' :: ('e' :: ('v' :: ('a' :: ('l' :: (s2 ++ ('(' :: (s3 ++ (')' :: (s4 ++ '\x7b' :: w)))))))))) from rfl]
  rw [dropWord1_self hw1ne hw1 (head_cons_false (by decide))]
  simp only [Option.some_bind]
  rw [show (':' :: (':' :: ('e' :: ('v' :: ('a' :: ('l' :: (s2 ++ ('(' :: (s3 ++ (')' :: (s4 ++ '\x7b' :: w)))))))))))
      = "::eval".toList ++ (s2 ++ ('(' :: (s3 ++ (')' :: (s4 ++ '\x7b' :: w))))) from rfl]
  rw [dropLit_self]
  simp only [Option.some_bind]
  rw [dropSpaces0_self hs2 (head_cons_false (by decide))]
  simp only [Option.some_bind]
  rw [dropChar_self]
  simp only [Option.some_bind]
  rw [dropSpaces0_self hs3 (head_cons_false (by decide))]
  simp only [Option.some_bind]
  rw [dropChar_self]
  simp only [Option.some_bind]
  rw [dropSpaces0_self hs4 (head_cons_false (by decide))]
  simp only [Option.some_bind]
  rw [dropChar_self]

theorem matchEval_eq {cs rest : List Char} (h : matchEval cs = some rest) :
    ∃ m, cs = m ++ rest ∧ IsMarkerChunk m := by
  unfold matchEval at h
  obtain ⟨c1, h1, h⟩ := Option.bind_eq_some.mp h
  obtain ⟨c2, h2, h⟩ := Option.bind_eq_some.mp h
  obtain ⟨c3, h3, h⟩ := Option.bind_eq_some.mp h
  obtain ⟨c4, h4, h⟩ := Option.bind_eq_some.mp h
  obtain ⟨c5, h5, h⟩ := Option.bind_eq_some.mp h
  obtain ⟨c6, h6, h⟩ := Option.bind_eq_some.mp h
  obtain ⟨c7, h7, h⟩ := Option.bind_eq_some.mp h
  obtain ⟨c8, h8, h⟩ := Option.bind_eq_some.mp h
  obtain ⟨c9, h9, h⟩ := Option.bind_eq_some.mp h
  have e1 := dropLit_eq h1
  obtain ⟨s1, e2, hs1ne, hs1, -⟩ := dropSpaces1_eq h2
  obtain ⟨w1, e3, hw1ne, hw1, -⟩ := dropWord1_eq h3
  have e4 := dropLit_eq h4
  obtain ⟨s2, e5, hs2, -⟩ := dropSpaces0_eq h5
  have e6 := dropChar_eq h6
  obtain ⟨s3, e7, hs3, -⟩ := dropSpaces0_eq h7
  have e8 := dropChar_eq h8
  obtain ⟨s4, e9, hs4, -⟩ := dropSpaces0_eq h9
  have e10 := dropChar_eq h
  refine ⟨"void".toList ++ s1 ++ w1 ++ "::eval".toList ++ s2 ++
      '(' :: s3 ++ ')' :: s4 ++ ['\x7b'], ?_,
    s1, w1, s2, s3, s4, rfl, hs1ne, hs1, hw1ne, hw1, hs2, hs3, hs4⟩
  rw [e1, e2, e3, e4, e5, e6, e7, e8, e9, e10]
  simp

theorem marker_brace {m : List Char} (h : IsMarkerChunk m) :
    ∃ m0, m = m0 ++ ['\x7b'] ∧ '\x7b' ∉ m0 := by
  obtain ⟨s1, w1, s2, s3, s4, rfl, -, hs1, -, hw1, hs2, hs3, hs4⟩ := h
  refine ⟨"void".toList ++ s1 ++ w1 ++ "::eval".toList ++ s2 ++
      '(' :: s3 ++ ')' :: s4, by simp, ?_⟩
  intro hmem
  simp only [List.mem_append, List.mem_cons] at hmem
  rcases hmem with ((((((hv | h1) | h2) | he) | h3) | (hp | h4)) | (hq | h5))
  · exact absurd hv (by decide)
  · exact space_ne_brace (hs1 _ h1) rfl
  · exact word_ne_brace (hw1 _ h2) rfl
  · exact absurd he (by decide)
  · exact space_ne_brace (hs2 _ h3) rfl
  · exact absurd hp (by decide)
  · exact space_ne_brace (hs3 _ h4) rfl
  · exact absurd hq (by decide)
  · exact space_ne_brace (hs4 _ h5) rfl


theorem searchEvalSplit_split {x p a : List Char}
    (h : searchEvalSplit x = some (p, a)) : x = p ++ a := by
  induction x generalizing p a with
  | nil => cases h
  | cons c tl ih =>
    rw [searchEvalSplit] at h
    cases hm : matchEval (c :: tl) with
    | some rest =>
      rw [hm] at h
      injection h with h
      injection h with hp ha
      subst ha
      obtain ⟨m, hm2, hmk⟩ := matchEval_eq hm
      have hlen : (c :: tl).length - rest.length = m.length := by
        rw [hm2]
        simp
      rw [← hp, hlen, hm2, List.take_left]
    | none =>
      rw [hm] at h
      cases hs : searchEvalSplit tl with
      | none => rw [hs] at h; cases h
      | some pa =>
        rw [hs] at h
        obtain ⟨p', a'⟩ := pa
        injection h with h
        injection h with hp ha
        subst ha
        rw [← hp, List.cons_append, ← ih hs]

theorem searchEvalSplit_ends_brace {x p a : List Char}
    (h : searchEvalSplit x = some (p, a)) : ∃ p0, p = p0 ++ ['\x7b'] := by
  induction x generalizing p a with
  | nil => cases h
  | cons c tl ih =>
    rw [searchEvalSplit] at h
    cases hm : matchEval (c :: tl) with
    | some rest =>
      rw [hm] at h
      injection h with h
      injection h with hp ha
      obtain ⟨m, hm2, hmk⟩ := matchEval_eq hm
      obtain ⟨m0, hm0, -⟩ := marker_brace hmk
      have hlen : (c :: tl).length - rest.length = m.length := by
        rw [hm2]
        simp
      refine ⟨m0, ?_⟩
      rw [← hp, hlen, hm2, List.take_left, hm0]
    | none =>
      rw [hm] at h
      cases hs : searchEvalSplit tl with
      | none => rw [hs] at h; cases h
      | some pa =>
        rw [hs] at h
        obtain ⟨p', a'⟩ := pa
        injection h with h
        injection h with hp ha
        obtain ⟨p0, hp0⟩ := ih hs
        refine ⟨c :: p0, ?_⟩
        rw [← hp, hp0]
        rfl

theorem searchEvalSplit_stable {x p a : List Char}
    (h : searchEvalSplit x = some (p, a)) (w : List Char) :
    searchEvalSplit (p ++ w) = some (p, w) := by
  induction x generalizing p a with
  | nil => cases h
  | cons c tl ih =>
    rw [searchEvalSplit] at h
    cases hm : matchEval (c :: tl) with
    | some rest =>
      rw [hm] at h
      injection h with h
      injection h with hp ha
      obtain ⟨m, hm2, hmk⟩ := matchEval_eq hm
      have hlen : (c :: tl).length - rest.length = m.length := by
        rw [hm2]
        simp
      have hpm : p = m := by
        rw [← hp, hlen, hm2, List.take_left]
      subst hpm
      have hmk2 := hmk
      obtain ⟨s1, w1, s2, s3, s4, hsh, -, -, -, -, -, -, -⟩ := hmk2
      have hcons : ∃ mt, p = 'v' :: mt := by
        rw [hsh]
        exact ⟨_, rfl⟩
      obtain ⟨mt, hmt⟩ := hcons
      rw [hmt, List.cons_append, searchEvalSplit, ← List.cons_append, ← hmt,
        matchEval_marker hmk w]
      show some (List.take ((p ++ w).length - w.length) (p ++ w), w) = some (p, w)
      have hlen2 : (p ++ w).length - w.length = p.length := by simp
      rw [hlen2, List.take_left]
    | none =>
      rw [hm] at h
      cases hs : searchEvalSplit tl with
      | none => rw [hs] at h; cases h
      | some pa =>
        rw [hs] at h
        obtain ⟨p', a'⟩ := pa
        simp only [Option.map_some'] at h
        injection h with h
        injection h with hp ha
        subst ha
        obtain ⟨p0, hp0⟩ := searchEvalSplit_ends_brace hs
        have hnomatch : matchEval ((c :: p') ++ w) = none := by
          cases hm2 : matchEval ((c :: p') ++ w) with
          | none => rfl
          | some rest2 =>
            exfalso
            obtain ⟨m, hmeq, hmk⟩ := matchEval_eq hm2
            have htl : tl = p' ++ a' := searchEvalSplit_split hs
            by_cases hle : m.length ≤ (c :: p').length
            · have hm' : m = (c :: p').take m.length := by
                have h1 : ((c :: p') ++ w).take m.length = m := by
                  rw [hmeq]
                  exact List.take_left ..
                rw [List.take_append_of_le_length hle] at h1
                exact h1.symm
              have hdec : c :: p' = m ++ (c :: p').drop m.length := by
                conv_lhs => rw [← List.take_append_drop m.length (c :: p')]
                rw [← hm']
              have hsplit : c :: tl = m ++ ((c :: p').drop m.length ++ a') := by
                rw [htl, ← List.cons_append]
                conv_lhs => rw [hdec]
                rw [List.append_assoc]
              have hcontra : matchEval (c :: tl) =
                  some ((c :: p').drop m.length ++ a') := by
                rw [hsplit]
                exact matchEval_marker hmk _
              rw [hcontra] at hm
              cases hm
            · obtain ⟨m0, hm0, hbr⟩ := marker_brace hmk
              have hcp : c :: p' = m.take (c :: p').length := by
                have h1 : ((c :: p') ++ w).take (c :: p').length = c :: p' :=
                  List.take_left ..
                rw [hmeq, List.take_append_of_le_length
                  (Nat.le_of_lt (Nat.lt_of_not_le hle))] at h1
                exact h1.symm
              have hlen0 : (c :: p').length ≤ m0.length := by
                have h2 := Nat.lt_of_not_le hle
                rw [hm0] at h2
                simp only [List.length_append, List.length_singleton] at h2
                omega
              have hcp2 : c :: p' = m0.take (c :: p').length := by
                conv_lhs => rw [hcp, hm0]
                rw [List.take_append_of_le_length hlen0]
              have hbrmem : '\x7b' ∈ c :: p' := by
                rw [hp0]
                exact List.mem_cons_of_mem _
                  (List.mem_append_right _ (List.mem_singleton.mpr rfl))
              rw [hcp2] at hbrmem
              exact hbr (List.mem_of_mem_take hbrmem)
        rw [← hp, List.cons_append, searchEvalSplit, ← List.cons_append,
          hnomatch, ih hs]
        rfl


/-! ## Brace-scan and strip lemmas -/

theorem braceAdvance_zero (cs : List Char) : braceAdvance cs 0 = 0 := by
  cases cs <;> simp [braceAdvance]

theorem braceAdvance_append_of_stays {u : List Char} {d : Nat}
    (h : scanStaysPos u d = true) (v : List Char) :
    braceAdvance (u ++ v) d = u.length + braceAdvance v (depthAfter u d) := by
  induction u generalizing d with
  | nil => simp [depthAfter]
  | cons c cs ih =>
    simp only [scanStaysPos, Bool.and_eq_true, decide_eq_true_eq] at h
    simp only [List.cons_append, braceAdvance, if_neg h.1, depthAfter,
      List.length_cons, List.append_eq]
    rw [ih h.2]
    omega

theorem braceCloses_decomp {cs : List Char} {d : Nat}
    (h : braceCloses cs d = true) (hd : d ≠ 0) :
    ∃ u v, cs = u ++ '\x7d' :: v ∧ scanStaysPos u d = true ∧
      depthAfter u d = 1 ∧ braceAdvance cs d = u.length + 1 := by
  induction cs generalizing d with
  | nil =>
    rw [braceCloses] at h
    exact absurd (by simpa using h) hd
  | cons c cs ih =>
    rw [braceCloses, if_neg hd] at h
    by_cases hstep : braceStep c d = 0
    · have hc : c = '\x7d' ∧ d = 1 := by
        unfold braceStep at hstep
        by_cases h1 : c = '\x7b'
        · rw [if_pos h1] at hstep
          omega
        · rw [if_neg h1] at hstep
          by_cases h2 : c = '\x7d'
          · rw [if_pos h2] at hstep
            refine ⟨h2, ?_⟩
            omega
          · rw [if_neg h2] at hstep
            exact absurd hstep hd
      obtain ⟨rfl, rfl⟩ := hc
      refine ⟨[], cs, rfl, rfl, rfl, ?_⟩
      rw [braceAdvance, if_neg hd]
      rw [show braceStep '\x7d' 1 = 0 from rfl, braceAdvance_zero]
      simp
    · obtain ⟨u, v, hcv, hst, hda, hba⟩ := ih h hstep
      refine ⟨c :: u, v, by rw [hcv]; exact (List.cons_append _ _ _).symm, ?_, ?_, ?_⟩
      · simp only [scanStaysPos, Bool.and_eq_true, decide_eq_true_eq]
        exact ⟨hd, hst⟩
      · simp only [depthAfter]
        exact hda
      · rw [braceAdvance, if_neg hd, hba]
        simp
        omega

theorem pyStrip_fix {body : List Char} (h : pyStrip body = body) :
    body.dropWhile isPySpace = body ∧
      body.reverse.dropWhile isPySpace = body.reverse := by
  have hsuf : body.dropWhile isPySpace <:+ body := List.dropWhile_suffix _
  have h1 : (pyStrip body).length ≤ (body.dropWhile isPySpace).length := by
    unfold pyStrip
    rw [List.length_reverse]
    calc ((body.dropWhile isPySpace).reverse.dropWhile isPySpace).length
        ≤ (body.dropWhile isPySpace).reverse.length :=
          (List.dropWhile_suffix _).length_le
      _ = (body.dropWhile isPySpace).length := List.length_reverse ..
  have h2 : (body.dropWhile isPySpace).length ≤ body.length :=
    (List.dropWhile_suffix _).length_le
  rw [h] at h1
  have hdeq : body.dropWhile isPySpace = body :=
    hsuf.eq_of_length (Nat.le_antisymm h2 h1)
  refine ⟨hdeq, ?_⟩
  have h3 : pyStrip body = (body.reverse.dropWhile isPySpace).reverse := by
    unfold pyStrip
    rw [hdeq]
  rw [h] at h3
  exact (List.reverse_eq_iff.mp h3.symm)

theorem pyStrip_wrap {body : List Char} (htrim : pyStrip body = body) :
    pyStrip ('\n' :: (body ++ ['\n'])) = body := by
  obtain ⟨hd, hr⟩ := pyStrip_fix htrim
  cases body with
  | nil => decide
  | cons b bs =>
    have hb : isPySpace b = false := by
      rw [List.dropWhile_cons] at hd
      by_cases hpb : isPySpace b = true
      · rw [if_pos hpb] at hd
        have hlen : bs.dropWhile isPySpace <:+ bs := List.dropWhile_suffix isPySpace
        have hlen := hlen.length_le
        rw [hd] at hlen
        simp at hlen
      · simpa using hpb
    unfold pyStrip
    rw [List.dropWhile_cons, if_pos (by decide : isPySpace '\n' = true)]
    rw [show ((b :: bs) ++ ['\n']) = b :: (bs ++ ['\n']) from rfl,
      List.dropWhile_cons, if_neg (by simp [hb])]
    rw [show (b :: (bs ++ ['\n'])) = (b :: bs) ++ ['\n'] from rfl,
      List.reverse_append,
      show (['\n'] : List Char).reverse ++ (b :: bs).reverse =
        '\n' :: (b :: bs).reverse from rfl,
      List.dropWhile_cons, if_pos (by decide : isPySpace '\n' = true), hr]
    exact List.reverse_reverse _


/-- C7 (amended): for a template containing the marker whose `eval` body is
closed by a matching brace, injecting a body whose braces are balanced (the
depth counter stays positive throughout and ends where it started) and that
has no leading or trailing whitespace, then re-extracting with the wrapper
stripper, returns the injected body unchanged.  The balanced and trimmed
hypotheses are forced by the code: extraction ends in `str.strip()` (see the
counterexample) and the brace scan pairs braces textually. -/
theorem inject_strip_roundtrip (template body pre after : List Char)
    (hsearch : searchEvalSplit template = some (pre, after))
    (hclose : braceCloses after 1 = true)
    (hstays : scanStaysPos body 1 = true)
    (hbal : depthAfter body 1 = 1)
    (htrim : pyStrip body = body) :
    ∃ res, injectEvalBody template body = .ok res ∧
      stripEvalWrapper res = body := by
  have hT : template = pre ++ after := searchEvalSplit_split hsearch
  obtain ⟨u, v, hafter, hust, huda, hadv⟩ := braceCloses_decomp hclose one_ne_zero
  refine ⟨pre ++ ('\n' :: (body ++ '\n' :: '\x7d' :: v)), ?_, ?_⟩
  · have hdef : injectEvalBody template body = .ok
        (template.take pre.length ++ '\n' :: body ++ '\n' ::
          template.drop (pre.length + braceAdvance after 1 - 1)) := by
      unfold injectEvalBody
      rw [hsearch]
    have h1 : template.take pre.length = pre := by
      rw [hT]
      exact List.take_left ..
    have h2 : template.drop (pre.length + braceAdvance after 1 - 1) =
        '\x7d' :: v := by
      rw [hadv]
      have hidx : pre.length + (u.length + 1) - 1 = (pre ++ u).length := by
        rw [List.length_append]
        omega
      rw [hidx, hT, hafter, ← List.append_assoc, List.drop_left]
    rw [hdef, h1, h2]
    simp [List.cons_append, List.append_assoc]
  · have hsearch2 : searchEvalSplit
        (pre ++ ('\n' :: (body ++ '\n' :: '\x7d' :: v))) =
        some (pre, '\n' :: (body ++ '\n' :: '\x7d' :: v)) :=
      searchEvalSplit_stable hsearch _
    have hdef2 : stripEvalWrapper (pre ++ ('\n' :: (body ++ '\n' :: '\x7d' :: v))) =
        pyStrip (('\n' :: (body ++ '\n' :: '\x7d' :: v)).take
          (braceAdvance ('\n' :: (body ++ '\n' :: '\x7d' :: v)) 1 - 1)) := by
      unfold stripEvalWrapper
      rw [hsearch2]
    have h3 : braceAdvance ('\n' :: '\x7d' :: v) 1 = 2 := by
      rw [braceAdvance, if_neg one_ne_zero,
        show braceStep '\n' 1 = 1 from rfl,
        braceAdvance, if_neg one_ne_zero,
        show braceStep '\x7d' 1 = 0 from rfl, braceAdvance_zero]
    have hadv2 : braceAdvance ('\n' :: (body ++ '\n' :: '\x7d' :: v)) 1 =
        body.length + 3 := by
      rw [braceAdvance, if_neg one_ne_zero,
        show braceStep '\n' 1 = 1 from rfl,
        braceAdvance_append_of_stays hstays, hbal, h3]
      omega
    have htake : ('\n' :: (body ++ '\n' :: '\x7d' :: v)).take
        (body.length + 3 - 1) = '\n' :: (body ++ ['\n']) := by
      have hn : body.length + 3 - 1 = (body.length + 1) + 1 := by omega
      rw [hn, List.take_succ_cons]
      congr 1
      rw [show body.length + 1 = body.length + 1 from rfl, List.take_append]
      rfl
    rw [hdef2, hadv2, htake]
    exact pyStrip_wrap htrim

/-- C7 witness: a concrete template and a trimmed, balanced body
round-trip. -/
theorem inject_strip_roundtrip_witness :
    searchEvalSplit "void A::eval() \x7b old \x7d tail".toList =
      some ("void A::eval() \x7b".toList, " old \x7d tail".toList) ∧
    braceCloses " old \x7d tail".toList 1 = true ∧
    scanStaysPos "x = y;".toList 1 = true ∧
    depthAfter "x = y;".toList 1 = 1 ∧
    pyStrip "x = y;".toList = "x = y;".toList ∧
    ∃ res, injectEvalBody "void A::eval() \x7b old \x7d tail".toList
        "x = y;".toList = .ok res ∧
      stripEvalWrapper res = "x = y;".toList := by
  refine ⟨by decide, by decide, by decide, by decide, by decide, ?_⟩
  exact inject_strip_roundtrip "void A::eval() \x7b old \x7d tail".toList
    "x = y;".toList "void A::eval() \x7b".toList " old \x7d tail".toList
    (by decide) (by decide) (by decide) (by decide) (by decide)

/-- C9 (amended): wrapper stripping is idempotent on every input whose
stripped result contains no further marker occurrence — in particular on all
marker-free texts.  It is not idempotent in general: a stripped body that
itself contains the marker is stripped again on the second application (see
the counterexample). -/
theorem strip_idempotent_of_clean (code : List Char)
    (h : searchEvalSplit (stripEvalWrapper code) = none) :
    stripEvalWrapper (stripEvalWrapper code) = stripEvalWrapper code := by
  have hid : ∀ y, searchEvalSplit y = none → stripEvalWrapper y = y := by
    intro y hy
    unfold stripEvalWrapper
    rw [hy]
  exact hid _ h

/-- C9 witness: a marker-free text. -/
theorem strip_idempotent_of_clean_witness :
    searchEvalSplit (stripEvalWrapper "plain body;".toList) = none ∧
    stripEvalWrapper (stripEvalWrapper "plain body;".toList) =
      stripEvalWrapper "plain body;".toList :=
  ⟨by decide, strip_idempotent_of_clean _ (by decide)⟩

end FHE
